import Mathlib

/-!
Verification of the SageMaker Flow Definition resource
(aws/resource_aws_sagemaker_flow_definition.go).

The provider's generic attribute representation (Go `interface{}` trees built
from strings, ints, lists, string sets and maps) is embedded as the inductive
type `Attr`.  Go maps are embedded as association lists (Go maps are
unordered, so a fixed listing order stands for the abstract map; lookups
never depend on it).  A failed single-form Go type assertion
panics, which is embedded as `Except GoPanic`.  Pointer-typed AWS SDK struct
fields are embedded as `Option`.  External calls (the AWS connection, the
`protocol` JSON codec, the tag-configuration helpers) are embedded as
function-valued parameters, so theorems quantify over their behaviour.
-/

/-- Generic attribute value: the embedding of Go `interface{}` as stored in
Terraform resource data.  `set` embeds `*schema.Set` of strings (a set is kept
as its element list; set equality ignores the hash order, which the model
represents by keeping a fixed order).  `nil` is the Go nil interface. -/
inductive Attr where
  | str (s : String)
  | int (n : Int)
  | set (xs : List String)
  | list (xs : List Attr)
  | map (m : List (String × Attr))
  | nil

/-- Association-list embedding of Go `map[string]interface{}`. -/
abbrev AttrMap := List (String × Attr)

/-- Lookup in a Go map: the first binding of the key, if any. -/
def lookupAttr : AttrMap → String → Option Attr
  | [], _ => none
  | (a, v) :: m, k => if k = a then some v else lookupAttr m k

mutual

/-- Structural equality test on attribute values. -/
def attrBeq : Attr → Attr → Bool
  | .str a, .str b => a == b
  | .int a, .int b => a == b
  | .set a, .set b => a == b
  | .list a, .list b => attrListBeq a b
  | .map a, .map b => attrMapBeq a b
  | .nil, .nil => true
  | _, _ => false

/-- Elementwise equality test on attribute lists. -/
def attrListBeq : List Attr → List Attr → Bool
  | [], [] => true
  | a :: as, b :: bs => attrBeq a b && attrListBeq as bs
  | _, _ => false

/-- Entrywise equality test on attribute maps. -/
def attrMapBeq : List (String × Attr) → List (String × Attr) → Bool
  | [], [] => true
  | (ka, va) :: as, (kb, vb) :: bs => ka == kb && attrBeq va vb && attrMapBeq as bs
  | _, _ => false

end

/-- Embedding of Go `error` values that the resource code distinguishes. -/
inductive GoErr where
  | awsErr (code : String) (msg : String)
  | notFoundErr
  | wrapped (msg : String) (inner : GoErr)
  | simple (msg : String)
deriving DecidableEq

/-- Embedding of a Go runtime panic (a failed single-form type assertion). -/
inductive GoPanic where
  | typeAssertion
deriving DecidableEq

/-- Embedding of `fmt.Errorf("<msg>: %w", err)`. -/
def wrapErr (msg : String) (e : GoErr) : GoErr := .wrapped msg e

/-- Does the list start with the given pattern? -/
def listStartsWith : List Char → List Char → Bool
  | _, [] => true
  | [], _ :: _ => false
  | a :: as, b :: bs => a == b && listStartsWith as bs

/-- Substring occurrence test on character lists. -/
def hasSubList (sub : List Char) : List Char → Bool
  | [] => sub.isEmpty
  | c :: t => listStartsWith (c :: t) sub || hasSubList sub t

/-- Embedding of `strings.Contains`. -/
def strContains (s sub : String) : Bool :=
  listStartsWith s.toList sub.toList || hasSubList sub.toList s.toList

/-- Embedding of `tfresource.NotFound` (modelled from the spec: the
`tfresource` helper is not under src/): the error chain contains a
not-found error. -/
def GoErr.isNotFound : GoErr → Bool
  | .notFoundErr => true
  | .wrapped _ inner => inner.isNotFound
  | _ => false

/-- Error-chain search for an AWS error with the given code whose message
contains the given text. -/
def GoErr.isAwsErrWith : GoErr → String → String → Bool
  | .awsErr code msg, c, sub => code == c && strContains msg sub
  | .wrapped _ inner, c, sub => inner.isAwsErrWith c sub
  | _, _, _ => false

/-- Embedding of `tfawserr.ErrMessageContains` (vendor helper): false on a nil
error, otherwise searches the chain for a matching AWS error. -/
def errMessageContains : Option GoErr → String → String → Bool
  | none, _, _ => false
  | some e, c, sub => e.isAwsErrWith c sub

/-- Embedding of `map[string]*string` tag payloads. -/
abbrev TagMap := List (String × String)

/-- Embedding of `aws.JSONValue` (`map[string]interface{}`). -/
abbrev JSONValue := List (String × Attr)

/-- Embedding of `aws.StringValue`: dereference, nil pointer gives "". -/
def stringValue (v : Option String) : String := v.getD ""

/-- Embedding of `aws.Int64Value`: dereference, nil pointer gives 0. -/
def int64Value (v : Option Int) : Int := v.getD 0

/-- Embedding of the keyvaluetags `IgnoreAws` filter (modelled from the spec:
keyvaluetags is not under src/): drop keys with the AWS-internal prefix. -/
def ignoreAwsTags (t : TagMap) : TagMap :=
  t.filter (fun kv => !(listStartsWith kv.fst.toList ("aws:").toList))

/-- Embedding of `sagemaker.HumanLoopConfig` (the SDK struct fields read and
written by this resource; pointer fields are `Option`). -/
structure HumanLoopConfig where
  humanTaskUiArn : Option String
  taskCount : Option Int
  taskDescription : Option String
  taskTitle : Option String
  workteamArn : Option String
  taskKeywords : Option (List String)
  taskAvailabilityLifetimeInSeconds : Option Int
  taskTimeLimitInSeconds : Option Int
deriving DecidableEq

/-- Embedding of `sagemaker.FlowDefinitionOutputConfig`. -/
structure FlowDefinitionOutputConfig where
  s3OutputPath : Option String
  kmsKeyId : Option String
deriving DecidableEq

/-- Embedding of `sagemaker.HumanLoopActivationConditionsConfig`. -/
structure HumanLoopActivationConditionsConfig where
  humanLoopActivationConditions : JSONValue

/-- Embedding of `sagemaker.HumanLoopActivationConfig`. -/
structure HumanLoopActivationConfig where
  humanLoopActivationConditionsConfig : Option HumanLoopActivationConditionsConfig

/-- Embedding of `sagemaker.HumanLoopRequestSource`. -/
structure HumanLoopRequestSource where
  awsManagedHumanLoopRequestSource : Option String
deriving DecidableEq

/-- Embedding of `sagemaker.DescribeFlowDefinitionOutput` (the fields the
Read function consumes). -/
structure DescribeFlowDefinitionOutput where
  flowDefinitionArn : Option String
  roleArn : Option String
  flowDefinitionName : Option String
  humanLoopActivationConfig : Option HumanLoopActivationConfig
  humanLoopConfig : Option HumanLoopConfig
  humanLoopRequestSource : Option HumanLoopRequestSource
  outputConfig : Option FlowDefinitionOutputConfig

/-- Embedding of `sagemaker.CreateFlowDefinitionInput`. -/
structure CreateFlowDefinitionInput where
  flowDefinitionName : Option String
  humanLoopConfig : Option HumanLoopConfig
  roleArn : Option String
  outputConfig : Option FlowDefinitionOutputConfig
  humanLoopActivationConfig : Option HumanLoopActivationConfig
  humanLoopRequestSource : Option HumanLoopRequestSource
  tags : Option TagMap

/-- Single-form Go type assertion `x.(map[string]interface{})` on a non-nil
interface value: panics unless the value is a map. -/
def asMapAttr : Attr → Except GoPanic AttrMap
  | .map m => .ok m
  | _ => .error .typeAssertion

/-- Single-form Go type assertion `m[k].(string)`: a missing key yields the
nil interface, on which the assertion panics. -/
def asString : Option Attr → Except GoPanic String
  | some (.str s) => .ok s
  | _ => .error .typeAssertion

/-- Single-form Go type assertion `m[k].(int)`. -/
def asInt : Option Attr → Except GoPanic Int
  | some (.int n) => .ok n
  | _ => .error .typeAssertion

/-- Single-form Go type assertion `m[k].([]interface{})`. -/
def asList : Option Attr → Except GoPanic (List Attr)
  | some (.list l) => .ok l
  | _ => .error .typeAssertion

/-- Comma-ok Go type assertion `v, ok := m[k].(string)`. -/
def asStringOk : Option Attr → String × Bool
  | some (.str s) => (s, true)
  | _ => ("", false)

/-- Comma-ok Go type assertion `v, ok := m[k].(int)`. -/
def asIntOk : Option Attr → Int × Bool
  | some (.int n) => (n, true)
  | _ => (0, false)

/-- Comma-ok Go type assertion `v, ok := m[k].(*schema.Set)`. -/
def asSetOk : Option Attr → List String × Bool
  | some (.set xs) => (xs, true)
  | _ => ([], false)

/-- Embedding of `expandStringSet`: the set's elements as a slice. -/
def expandStringSet (xs : List String) : List String := xs

/-- Embedding of `flattenStringSet`: a slice collected back into a set. -/
def flattenStringSet (xs : List String) : List String := xs

/-- Embedding of `expandSagemakerFlowDefinitionHumanLoopActivationConditionsConfig`.
The external `protocol.DecodeJSONValue` is passed in as `decode`, returning a
value and a possible error; the source discards the error component. -/
def expandSagemakerFlowDefinitionHumanLoopActivationConditionsConfig
    (decode : String → JSONValue × Option GoErr) :
    List Attr → Except GoPanic (Option HumanLoopActivationConditionsConfig)
  | [] => .ok none
  | .nil :: _ => .ok none
  | a :: _ =>
    match asMapAttr a with
    | .error e => .error e
    | .ok m =>
      match asString (lookupAttr m "human_loop_activation_conditions") with
      | .error e => .error e
      | .ok s =>
        .ok (some { humanLoopActivationConditions := (decode s).1 })

/-- Embedding of `flattenSagemakerFlowDefinitionHumanLoopActivationConditionsConfig`.
The external `protocol.EncodeJSONValue` is passed in as `encode`; the source
discards the error component. -/
def flattenSagemakerFlowDefinitionHumanLoopActivationConditionsConfig
    (encode : JSONValue → String × Option GoErr) :
    Option HumanLoopActivationConditionsConfig → List AttrMap
  | none => []
  | some config =>
    [[("human_loop_activation_conditions",
       .str (encode config.humanLoopActivationConditions).1)]]

/-- Embedding of `expandSagemakerFlowDefinitionHumanLoopActivationConfig`. -/
def expandSagemakerFlowDefinitionHumanLoopActivationConfig
    (decode : String → JSONValue × Option GoErr) :
    List Attr → Except GoPanic (Option HumanLoopActivationConfig)
  | [] => .ok none
  | .nil :: _ => .ok none
  | a :: _ =>
    match asMapAttr a with
    | .error e => .error e
    | .ok m =>
      match asList (lookupAttr m "human_loop_activation_conditions_config") with
      | .error e => .error e
      | .ok inner =>
        match expandSagemakerFlowDefinitionHumanLoopActivationConditionsConfig decode inner with
        | .error e => .error e
        | .ok c => .ok (some { humanLoopActivationConditionsConfig := c })

/-- Embedding of `flattenSagemakerFlowDefinitionHumanLoopActivationConfig`. -/
def flattenSagemakerFlowDefinitionHumanLoopActivationConfig
    (encode : JSONValue → String × Option GoErr) :
    Option HumanLoopActivationConfig → List AttrMap
  | none => []
  | some config =>
    [[("human_loop_activation_conditions_config",
       .list ((flattenSagemakerFlowDefinitionHumanLoopActivationConditionsConfig
          encode config.humanLoopActivationConditionsConfig).map .map))]]

/-- Embedding of `expandSagemakerFlowDefinitionOutputConfig`. -/
def expandSagemakerFlowDefinitionOutputConfig :
    List Attr → Except GoPanic (Option FlowDefinitionOutputConfig)
  | [] => .ok none
  | .nil :: _ => .ok none
  | a :: _ =>
    match asMapAttr a with
    | .error e => .error e
    | .ok m =>
      match asString (lookupAttr m "s3_output_path") with
      | .error e => .error e
      | .ok s3 =>
        let base : FlowDefinitionOutputConfig := { s3OutputPath := some s3, kmsKeyId := none }
        match asStringOk (lookupAttr m "kms_key_id") with
        | (v, true) => if v ≠ "" then .ok (some { base with kmsKeyId := some v }) else .ok (some base)
        | (_, false) => .ok (some base)

/-- Embedding of `flattenSagemakerFlowDefinitionOutputConfig`. -/
def flattenSagemakerFlowDefinitionOutputConfig :
    Option FlowDefinitionOutputConfig → List AttrMap
  | none => []
  | some config =>
    [[("kms_key_id", .str (stringValue config.kmsKeyId)),
      ("s3_output_path", .str (stringValue config.s3OutputPath))]]

/-- Embedding of `expandSagemakerFlowDefinitionHumanLoopRequestSource`. -/
def expandSagemakerFlowDefinitionHumanLoopRequestSource :
    List Attr → Except GoPanic (Option HumanLoopRequestSource)
  | [] => .ok none
  | .nil :: _ => .ok none
  | a :: _ =>
    match asMapAttr a with
    | .error e => .error e
    | .ok m =>
      match asString (lookupAttr m "aws_managed_human_loop_request_source") with
      | .error e => .error e
      | .ok s => .ok (some { awsManagedHumanLoopRequestSource := some s })

/-- Embedding of `flattenSagemakerFlowDefinitionHumanLoopRequestSource`. -/
def flattenSagemakerFlowDefinitionHumanLoopRequestSource :
    Option HumanLoopRequestSource → List AttrMap
  | none => []
  | some config =>
    [[("aws_managed_human_loop_request_source",
       .str (stringValue config.awsManagedHumanLoopRequestSource))]]

/-- Embedding of `expandSagemakerFlowDefinitionHumanLoopConfig`.  The five
required keys are read with single-form (panicking) assertions; the three
optional ones with comma-ok assertions. -/
def expandSagemakerFlowDefinitionHumanLoopConfig :
    List Attr → Except GoPanic (Option HumanLoopConfig)
  | [] => .ok none
  | .nil :: _ => .ok none
  | a :: _ =>
    match asMapAttr a with
    | .error e => .error e
    | .ok m =>
      match asString (lookupAttr m "human_task_ui_arn"),
            asInt (lookupAttr m "task_count"),
            asString (lookupAttr m "task_description"),
            asString (lookupAttr m "task_title"),
            asString (lookupAttr m "workteam_arn") with
      | .ok hArn, .ok tc, .ok td, .ok tt, .ok wa =>
        let base : HumanLoopConfig :=
          { humanTaskUiArn := some hArn, taskCount := some tc,
            taskDescription := some td, taskTitle := some tt, workteamArn := some wa,
            taskKeywords := none, taskAvailabilityLifetimeInSeconds := none,
            taskTimeLimitInSeconds := none }
        let c1 :=
          match asSetOk (lookupAttr m "task_keywords") with
          | (v, true) =>
            if v.length > 0 then { base with taskKeywords := some (expandStringSet v) } else base
          | (_, false) => base
        let c2 :=
          match asIntOk (lookupAttr m "task_availability_lifetime_in_seconds") with
          | (v, true) => { c1 with taskAvailabilityLifetimeInSeconds := some v }
          | (_, false) => c1
        let c3 :=
          match asIntOk (lookupAttr m "task_time_limit_in_seconds") with
          | (v, true) => { c2 with taskTimeLimitInSeconds := some v }
          | (_, false) => c2
        .ok (some c3)
      | .error e, _, _, _, _ => .error e
      | _, .error e, _, _, _ => .error e
      | _, _, .error e, _, _ => .error e
      | _, _, _, .error e, _ => .error e
      | _, _, _, _, .error e => .error e

/-- Embedding of `flattenSagemakerFlowDefinitionHumanLoopConfig`.  The three
optional map inserts are embedded as appends; all keys are distinct, so
lookup agrees with Go map insertion. -/
def flattenSagemakerFlowDefinitionHumanLoopConfig :
    Option HumanLoopConfig → List AttrMap
  | none => []
  | some config =>
    let m : AttrMap :=
      [("human_task_ui_arn", .str (stringValue config.humanTaskUiArn)),
       ("task_count", .int (int64Value config.taskCount)),
       ("task_description", .str (stringValue config.taskDescription)),
       ("task_title", .str (stringValue config.taskTitle)),
       ("workteam_arn", .str (stringValue config.workteamArn))]
    let m :=
      match config.taskKeywords with
      | some v => m ++ [("task_keywords", .set (flattenStringSet v))]
      | none => m
    let m :=
      match config.taskAvailabilityLifetimeInSeconds with
      | some v => m ++ [("task_availability_lifetime_in_seconds", .int v)]
      | none => m
    let m :=
      match config.taskTimeLimitInSeconds with
      | some v => m ++ [("task_time_limit_in_seconds", .int v)]
      | none => m
    [m]

/-- Embedding of `*schema.ResourceData`: the resource ID, the current
attribute map, the prior attribute map (for `GetChange`/`HasChange`), and the
new-resource flag. -/
structure ResourceData where
  id : String
  attrs : AttrMap
  oldAttrs : AttrMap
  isNew : Bool

/-- Embedding of `d.Id()`. -/
def ResourceData.getId (d : ResourceData) : String := d.id

/-- Embedding of `d.SetId`. -/
def ResourceData.setId (d : ResourceData) (i : String) : ResourceData :=
  { d with id := i }

/-- Embedding of `d.Get(k).(string)` for a schema `TypeString` attribute: the
schema guarantees the stored value is a string, and an unset attribute reads
as the zero value "". -/
def ResourceData.getStr (d : ResourceData) (k : String) : String :=
  match lookupAttr d.attrs k with
  | some (.str s) => s
  | _ => ""

/-- Embedding of `d.Get(k).([]interface{})` for a schema `TypeList` attribute;
an unset attribute reads as the zero value, the empty list. -/
def ResourceData.getList (d : ResourceData) (k : String) : List Attr :=
  match lookupAttr d.attrs k with
  | some (.list l) => l
  | _ => []

/-- String-valued entries of an attribute map (the keyvaluetags view of a
schema `TypeMap` of strings). -/
def tagMapOfAttrMap : AttrMap → TagMap
  | [] => []
  | (k, .str v) :: m => (k, v) :: tagMapOfAttrMap m
  | _ :: m => tagMapOfAttrMap m

/-- Embedding of `keyvaluetags.New(d.Get(k).(map[string]interface{}))`
(modelled from the spec: keyvaluetags is not under src/); the schema
guarantees a string-valued map, unset reads as the empty map. -/
def ResourceData.getTags (d : ResourceData) (k : String) : TagMap :=
  match lookupAttr d.attrs k with
  | some (.map m) => tagMapOfAttrMap m
  | _ => []

/-- Update a binding in place, appending when the key is new. -/
def setAttrIn : AttrMap → String → Attr → AttrMap
  | [], k, v => [(k, v)]
  | (a, w) :: m, k, v => if k = a then (a, v) :: m else (a, w) :: setAttrIn m k v

/-- Embedding of `d.Set`.  The Go call can only fail for a key absent from
the schema; every key this resource sets is in the schema, so the embedding
is total. -/
def ResourceData.set (d : ResourceData) (k : String) (v : Attr) : ResourceData :=
  { d with attrs := setAttrIn d.attrs k v }

/-- Embedding of `d.GetChange(k)` for the map-typed `tags_all` attribute:
the (old, new) pair, an unset side reading as the zero value (empty map). -/
def ResourceData.getChange (d : ResourceData) (k : String) : Attr × Attr :=
  ((lookupAttr d.oldAttrs k).getD (.map []), (lookupAttr d.attrs k).getD (.map []))

/-- Embedding of `d.HasChange(k)`: the old and new values differ. -/
def ResourceData.hasChange (d : ResourceData) (k : String) : Bool :=
  !attrBeq (d.getChange k).1 (d.getChange k).2

/-- One AWS call issued by a CRUD function, recorded for the trace. -/
inductive ApiCall where
  | createFlowDefinition (input : CreateFlowDefinitionInput)
  | describeFlowDefinition (name : String)
  | listTags (arn : String)
  | updateTags (arn : String) (o n : Attr)
  | deleteFlowDefinition (name : String)

/-- Calls that mutate remote AWS state. -/
def ApiCall.isMutating : ApiCall → Bool
  | .createFlowDefinition _ => true
  | .updateTags _ _ _ => true
  | .deleteFlowDefinition _ => true
  | .describeFlowDefinition _ => false
  | .listTags _ => false

/-- The SageMaker connection: each operation's response as a function of its
request.  `describeFlowDefinition` stands for `finder.FlowDefinitionByName`
and `listTags`/`updateTags` for the keyvaluetags calls (modelled from the
spec: those repository helpers are not under src/). -/
structure AwsApi where
  createFlowDefinition : CreateFlowDefinitionInput → Option GoErr
  describeFlowDefinition : String → Except GoErr DescribeFlowDefinitionOutput
  listTags : String → Except GoErr TagMap
  updateTags : String → Attr → Attr → Option GoErr
  deleteFlowDefinition : String → Option GoErr

/-- Client-side configuration and external pure helpers: the JSON codec of
the `protocol` package and the provider's default/ignore tag configuration
(modelled from the spec: those packages are not under src/). -/
structure AwsClientEnv where
  decodeJSONValue : String → JSONValue × Option GoErr
  encodeJSONValue : JSONValue → String × Option GoErr
  mergeDefaultTags : TagMap → TagMap
  removeDefaultTags : TagMap → TagMap
  ignoreConfigTags : TagMap → TagMap

/-- Result of a CRUD function: the updated resource data, the returned error,
and the trace of AWS calls it issued, in order. -/
structure CrudResult where
  d : ResourceData
  err : Option GoErr
  calls : List ApiCall

/-- Embedding of `resourceAwsSagemakerFlowDefinitionRead`. -/
def resourceAwsSagemakerFlowDefinitionRead (api : AwsApi) (env : AwsClientEnv)
    (d : ResourceData) : CrudResult :=
  match api.describeFlowDefinition d.getId with
  | .error e =>
    if !d.isNew && e.isNotFound then
      { d := d.setId "", err := none, calls := [.describeFlowDefinition d.getId] }
    else
      { d := d,
        err := some (wrapErr ("error reading SageMaker Flow Definition (" ++ d.getId ++ ")") e),
        calls := [.describeFlowDefinition d.getId] }
  | .ok fd =>
    let arn := stringValue fd.flowDefinitionArn
    let d1 := ((d.set "arn" (.str arn)).set "role_arn"
        (.str (stringValue fd.roleArn))).set "flow_definition_name"
        (.str (stringValue fd.flowDefinitionName))
    let d2 := d1.set "human_loop_activation_config"
        (.list ((flattenSagemakerFlowDefinitionHumanLoopActivationConfig
          env.encodeJSONValue fd.humanLoopActivationConfig).map .map))
    let d3 := d2.set "human_loop_config"
        (.list ((flattenSagemakerFlowDefinitionHumanLoopConfig fd.humanLoopConfig).map .map))
    let d4 := d3.set "human_loop_request_source"
        (.list ((flattenSagemakerFlowDefinitionHumanLoopRequestSource
          fd.humanLoopRequestSource).map .map))
    let d5 := d4.set "output_config"
        (.list ((flattenSagemakerFlowDefinitionOutputConfig fd.outputConfig).map .map))
    match api.listTags arn with
    | .error e =>
      { d := d5,
        err := some (wrapErr ("error listing tags for SageMaker Flow Definition ("
          ++ d.getId ++ ")") e),
        calls := [.describeFlowDefinition d.getId, .listTags arn] }
    | .ok tags0 =>
      let tags := env.ignoreConfigTags (ignoreAwsTags tags0)
      let d6 := (d5.set "tags"
          (.map ((env.removeDefaultTags tags).map (fun kv => (kv.1, .str kv.2))))).set
          "tags_all" (.map (tags.map (fun kv => (kv.1, .str kv.2))))
      { d := d6, err := none,
        calls := [.describeFlowDefinition d.getId, .listTags arn] }

/-- Embedding of `resourceAwsSagemakerFlowDefinitionCreate`.  `GetOk` on a
list attribute combined with the source's `len(v) > 0` check is embedded as
a length test on the stored list. -/
def resourceAwsSagemakerFlowDefinitionCreate (api : AwsApi) (env : AwsClientEnv)
    (d : ResourceData) : Except GoPanic CrudResult :=
  let tags := env.mergeDefaultTags (d.getTags "tags")
  let name := d.getStr "flow_definition_name"
  match expandSagemakerFlowDefinitionHumanLoopConfig (d.getList "human_loop_config") with
  | .error e => .error e
  | .ok hlc =>
  match expandSagemakerFlowDefinitionOutputConfig (d.getList "output_config") with
  | .error e => .error e
  | .ok oc =>
  let input0 : CreateFlowDefinitionInput :=
    { flowDefinitionName := some name, humanLoopConfig := hlc,
      roleArn := some (d.getStr "role_arn"), outputConfig := oc,
      humanLoopActivationConfig := none, humanLoopRequestSource := none, tags := none }
  match (if (d.getList "human_loop_activation_config").length > 0 then
      (expandSagemakerFlowDefinitionHumanLoopActivationConfig env.decodeJSONValue
        (d.getList "human_loop_activation_config")).map
        (fun v => { input0 with humanLoopActivationConfig := v })
    else .ok input0) with
  | .error e => .error e
  | .ok input1 =>
  match (if (d.getList "human_loop_request_source").length > 0 then
      (expandSagemakerFlowDefinitionHumanLoopRequestSource
        (d.getList "human_loop_request_source")).map
        (fun v => { input1 with humanLoopRequestSource := v })
    else .ok input1) with
  | .error e => .error e
  | .ok input2 =>
  let input3 := if tags.length > 0 then { input2 with tags := some (ignoreAwsTags tags) }
    else input2
  match api.createFlowDefinition input3 with
  | some e =>
    .ok { d := d,
          err := some (wrapErr ("error creating SageMaker Flow Definition ("
            ++ name ++ ")") e),
          calls := [.createFlowDefinition input3] }
  | none =>
    let r := resourceAwsSagemakerFlowDefinitionRead api env (d.setId name)
    .ok { d := r.d, err := r.err, calls := .createFlowDefinition input3 :: r.calls }

/-- Embedding of `resourceAwsSagemakerFlowDefinitionUpdate`. -/
def resourceAwsSagemakerFlowDefinitionUpdate (api : AwsApi) (env : AwsClientEnv)
    (d : ResourceData) : CrudResult :=
  if d.hasChange "tags_all" then
    let o := (d.getChange "tags_all").1
    let n := (d.getChange "tags_all").2
    let arn := d.getStr "arn"
    match api.updateTags arn o n with
    | some e =>
      { d := d,
        err := some (wrapErr ("error updating SageMaker Flow Definition ("
          ++ d.getId ++ ") tags") e),
        calls := [.updateTags arn o n] }
    | none =>
      let r := resourceAwsSagemakerFlowDefinitionRead api env d
      { d := r.d, err := r.err, calls := .updateTags arn o n :: r.calls }
  else
    resourceAwsSagemakerFlowDefinitionRead api env d

/-- Embedding of `resourceAwsSagemakerFlowDefinitionDelete`. -/
def resourceAwsSagemakerFlowDefinitionDelete (api : AwsApi)
    (d : ResourceData) : CrudResult :=
  let e := api.deleteFlowDefinition d.getId
  if errMessageContains e "ValidationException" "The work team" then
    { d := d, err := none, calls := [.deleteFlowDefinition d.getId] }
  else
    match e with
    | some err =>
      { d := d,
        err := some (wrapErr ("error deleting SageMaker Flow Definition ("
          ++ d.getId ++ ")") err),
        calls := [.deleteFlowDefinition d.getId] }
    | none => { d := d, err := none, calls := [.deleteFlowDefinition d.getId] }

/-- Regular expressions over characters with arbitrary character classes,
enough to embed the two patterns the schema compiles with
`regexp.MustCompile`. -/
inductive Regex where
  | emp
  | eps
  | cls (p : Char → Bool)
  | cat (r₁ r₂ : Regex)
  | alt (r₁ r₂ : Regex)
  | star (r : Regex)

/-- Does the expression accept the empty string? -/
def Regex.nullable : Regex → Bool
  | .emp => false
  | .eps => true
  | .cls _ => false
  | .cat a b => a.nullable && b.nullable
  | .alt a b => a.nullable || b.nullable
  | .star _ => true

/-- Brzozowski derivative with respect to one character. -/
def Regex.deriv : Regex → Char → Regex
  | .emp, _ => .emp
  | .eps, _ => .emp
  | .cls p, c => if p c then .eps else .emp
  | .cat a b, c =>
    if a.nullable then .alt (.cat (a.deriv c) b) (b.deriv c) else .cat (a.deriv c) b
  | .alt a b, c => .alt (a.deriv c) (b.deriv c)
  | .star a, c => .cat (a.deriv c) (.star a)

/-- Executable anchored matcher: consume the word by derivatives, then test
nullability.  This is the semantics of `regexp.MatchString` for a pattern
anchored with `^` and `$`. -/
def Regex.rmatch : Regex → List Char → Bool
  | r, [] => r.nullable
  | r, c :: cs => (r.deriv c).rmatch cs

/-- Class of one literal character. -/
def rchar (c : Char) : Regex := .cls (fun x => x == c)

/-- Concatenation of literal characters: a literal string inside a pattern. -/
def rstring : List Char → Regex
  | [] => .eps
  | c :: cs => .cat (rchar c) (rstring cs)

/-- The class `[a-z0-9]`. -/
def isLowAlnum (c : Char) : Bool :=
  (decide ('a' ≤ c) && decide (c ≤ 'z')) || (decide ('0' ≤ c) && decide (c ≤ '9'))

/-- The class `[-]` used by `-*`. -/
def isDashChar (c : Char) : Bool := c == '-'

/-- The class `[^/]`: any character other than a slash. -/
def notSlash (c : Char) : Bool := !(c == '/')

/-- The RE2 `.`: any character other than a newline. -/
def notNewline (c : Char) : Bool := !(c == '\n')

/-- Embedding of the compiled pattern `^[a-z0-9](-*[a-z0-9])*$` from the
`flow_definition_name` schema. -/
def flowDefinitionNameRegex : Regex :=
  .cat (.cls isLowAlnum) (.star (.cat (.star (.cls isDashChar)) (.cls isLowAlnum)))

/-- Embedding of the compiled pattern `^(https|s3)://([^/])/?(.*)$` from the
`s3_output_path` schema. -/
def s3OutputPathRegex : Regex :=
  .cat (.alt (rstring ("https").toList) (rstring ("s3").toList))
    (.cat (rstring ("://").toList)
      (.cat (.cls notSlash)
        (.cat (.alt .eps (rchar '/')) (.star (.cls notNewline)))))

/-- Embedding of `validation.StringLenBetween(lo, hi)`: Go `len` counts
bytes. -/
def stringLenBetween (lo hi : Nat) (s : String) : Bool :=
  decide (lo ≤ s.utf8ByteSize) && decide (s.utf8ByteSize ≤ hi)

/-- Embedding of `validation.StringMatch` for an anchored pattern: the whole
string must match. -/
def stringMatchRegex (r : Regex) (s : String) : Bool := r.rmatch s.toList

/-- Embedding of the `flow_definition_name` ValidateFunc:
`validation.All(StringLenBetween(1, 63), StringMatch(...))`, accepted when no
sub-validator reports an error. -/
def validateFlowDefinitionName (s : String) : Bool :=
  stringLenBetween 1 63 s && stringMatchRegex flowDefinitionNameRegex s

/-- Embedding of the `s3_output_path` ValidateFunc:
`validation.All(StringMatch(...), StringLenBetween(1, 512))`. -/
def validateS3OutputPath (s : String) : Bool :=
  stringMatchRegex s3OutputPathRegex s && stringLenBetween 1 512 s

/-- The language of `^[a-z0-9](-*[a-z0-9])*$` described structurally:
nonempty, every character a lowercase alphanumeric or a hyphen, and the
first and last characters alphanumeric. -/
def FlowNameChars (cs : List Char) : Prop :=
  cs ≠ [] ∧ (∀ c ∈ cs, isLowAlnum c = true ∨ c = '-') ∧
    (∀ c, cs.head? = some c → isLowAlnum c = true) ∧
    (∀ c, cs.getLast? = some c → isLowAlnum c = true)

/-- The repeated group `-*[a-z0-9]` of the flow-name pattern. -/
def flowNameChunk : Regex := .cat (.star (.cls isDashChar)) (.cls isLowAlnum)

/-- The starred tail `(-*[a-z0-9])*` of the flow-name pattern. -/
def flowNameTail : Regex := .star flowNameChunk

/-- A fully populated `human_loop_config` block map, with the optional
keyword set present or absent, listed in the key order the flatten function
produces (Go maps are unordered; the association list fixes one order). -/
def hlcInputMap (arn td tt wa : String) (tc tal ttl : Int)
    (kw : Option (List String)) : AttrMap :=
  [("human_task_ui_arn", .str arn), ("task_count", .int tc),
   ("task_description", .str td), ("task_title", .str tt), ("workteam_arn", .str wa)]
  ++ (match kw with | some v => [("task_keywords", .set v)] | none => [])
  ++ [("task_availability_lifetime_in_seconds", .int tal),
      ("task_time_limit_in_seconds", .int ttl)]

/-- An `output_config` block map with both schema keys present. -/
def ocInputMap (kms s3 : String) : AttrMap :=
  [("kms_key_id", .str kms), ("s3_output_path", .str s3)]

/-- The `CreateFlowDefinitionInput` the Create function assembles from the
resource data: required blocks always, optional blocks only when their list
attribute is nonempty, merged tags only when nonempty. -/
def createInputOf (env : AwsClientEnv) (d : ResourceData)
    (hlc : Option HumanLoopConfig) (oc : Option FlowDefinitionOutputConfig)
    (hlac : Option HumanLoopActivationConfig) (hlrs : Option HumanLoopRequestSource) :
    CreateFlowDefinitionInput :=
  { flowDefinitionName := some (d.getStr "flow_definition_name"),
    humanLoopConfig := hlc,
    roleArn := some (d.getStr "role_arn"),
    outputConfig := oc,
    humanLoopActivationConfig :=
      if (d.getList "human_loop_activation_config").length > 0 then hlac else none,
    humanLoopRequestSource :=
      if (d.getList "human_loop_request_source").length > 0 then hlrs else none,
    tags :=
      if (env.mergeDefaultTags (d.getTags "tags")).length > 0 then
        some (ignoreAwsTags (env.mergeDefaultTags (d.getTags "tags")))
      else none }

/-- A concrete client environment for evaluating the theorems at witnesses. -/
def testEnv : AwsClientEnv :=
  { decodeJSONValue := fun _ => ([], none),
    encodeJSONValue := fun _ => ("", none),
    mergeDefaultTags := fun t => t,
    removeDefaultTags := fun t => t,
    ignoreConfigTags := fun t => t }

/-- A concrete connection whose responses are fixed, for evaluating the
theorems at witnesses. -/
def testApi (find : Except GoErr DescribeFlowDefinitionOutput)
    (create upd del : Option GoErr) : AwsApi :=
  { createFlowDefinition := fun _ => create,
    describeFlowDefinition := fun _ => find,
    listTags := fun _ => .ok [],
    updateTags := fun _ _ _ => upd,
    deleteFlowDefinition := fun _ => del }

/-- A concrete described flow definition, for witnesses. -/
def testFD : DescribeFlowDefinitionOutput :=
  { flowDefinitionArn := some "arn:x", roleArn := some "arn:r",
    flowDefinitionName := some "abc", humanLoopActivationConfig := none,
    humanLoopConfig := none, humanLoopRequestSource := none, outputConfig := none }

/-- Concrete resource data, for witnesses. -/
def testData : ResourceData :=
  { id := "abc",
    attrs := [("flow_definition_name", .str "abc"), ("arn", .str "arn:x"),
              ("tags_all", .map [("k", .str "v")])],
    oldAttrs := [],
    isNew := false }

theorem rmatch_nil (r : Regex) : r.rmatch [] = r.nullable := rfl

theorem rmatch_cons (r : Regex) (c : Char) (cs : List Char) :
    r.rmatch (c :: cs) = (r.deriv c).rmatch cs := rfl

theorem emp_rmatch (x : List Char) : Regex.emp.rmatch x = false := by
  induction x with
  | nil => rfl
  | cons c cs ih => simpa [rmatch_cons, Regex.deriv] using ih

theorem eps_rmatch_iff (x : List Char) : Regex.eps.rmatch x = true ↔ x = [] := by
  cases x with
  | nil => simp [rmatch_nil, Regex.nullable]
  | cons c cs => simp [rmatch_cons, Regex.deriv, emp_rmatch]

theorem cls_rmatch_iff (p : Char → Bool) (x : List Char) :
    (Regex.cls p).rmatch x = true ↔ ∃ c, x = [c] ∧ p c = true := by
  cases x with
  | nil => simp [rmatch_nil, Regex.nullable]
  | cons c cs =>
    rw [rmatch_cons]
    show (if p c then Regex.eps else Regex.emp).rmatch cs = true ↔ _
    by_cases hp : p c = true
    · rw [if_pos hp, eps_rmatch_iff]
      constructor
      · rintro rfl; exact ⟨c, rfl, hp⟩
      · rintro ⟨c', hc, _⟩
        cases hc; rfl
    · rw [if_neg hp]
      simp only [emp_rmatch, Bool.false_eq_true, false_iff]
      rintro ⟨c', hc, hpc⟩
      cases hc
      exact hp hpc

theorem alt_rmatch_iff (P Q : Regex) (x : List Char) :
    (Regex.alt P Q).rmatch x = true ↔ P.rmatch x = true ∨ Q.rmatch x = true := by
  induction x generalizing P Q with
  | nil => simp [rmatch_nil, Regex.nullable, Bool.or_eq_true]
  | cons c cs ih => simpa [rmatch_cons, Regex.deriv] using ih (P.deriv c) (Q.deriv c)

theorem cat_rmatch_iff (P Q : Regex) (x : List Char) :
    (Regex.cat P Q).rmatch x = true ↔
      ∃ t u, x = t ++ u ∧ P.rmatch t = true ∧ Q.rmatch u = true := by
  induction x generalizing P Q with
  | nil =>
    simp only [rmatch_nil, Regex.nullable, Bool.and_eq_true]
    constructor
    · rintro ⟨hp, hq⟩
      exact ⟨[], [], rfl, hp, hq⟩
    · rintro ⟨t, u, h, hp, hq⟩
      obtain ⟨rfl, rfl⟩ := List.append_eq_nil.mp h.symm
      exact ⟨hp, hq⟩
  | cons c cs ih =>
    rw [rmatch_cons]
    show (if P.nullable then Regex.alt (.cat (P.deriv c) Q) (Q.deriv c)
        else Regex.cat (P.deriv c) Q).rmatch cs = true ↔ _
    by_cases hn : P.nullable = true
    · rw [if_pos hn, alt_rmatch_iff, ih]
      constructor
      · rintro (⟨t, u, rfl, hp, hq⟩ | h)
        · exact ⟨c :: t, u, rfl, hp, hq⟩
        · exact ⟨[], c :: cs, rfl, hn, h⟩
      · rintro ⟨t, u, h, hp, hq⟩
        cases t with
        | nil =>
          right
          rw [List.nil_append] at h
          rw [← h] at hq
          exact hq
        | cons b t =>
          left
          rw [List.cons_append] at h
          obtain ⟨rfl, rfl⟩ : c = b ∧ cs = t ++ u := by
            injection h with h1 h2; exact ⟨h1, h2⟩
          exact ⟨t, u, rfl, hp, hq⟩
    · rw [if_neg hn, ih]
      constructor
      · rintro ⟨t, u, rfl, hp, hq⟩
        exact ⟨c :: t, u, rfl, hp, hq⟩
      · rintro ⟨t, u, h, hp, hq⟩
        cases t with
        | nil =>
          rw [rmatch_nil] at hp
          exact absurd hp hn
        | cons b t =>
          rw [List.cons_append] at h
          obtain ⟨rfl, rfl⟩ : c = b ∧ cs = t ++ u := by
            injection h with h1 h2; exact ⟨h1, h2⟩
          exact ⟨t, u, rfl, hp, hq⟩

theorem star_rmatch_aux (P : Regex) :
    ∀ (n : Nat) (x : List Char), x.length ≤ n →
    ((Regex.star P).rmatch x = true ↔
      ∃ S : List (List Char), x = S.flatten ∧ ∀ t ∈ S, t ≠ [] ∧ P.rmatch t = true) := by
  intro n
  induction n with
  | zero =>
    intro x hx
    obtain rfl : x = [] := List.length_eq_zero.mp (Nat.le_zero.mp hx)
    constructor
    · intro _
      exact ⟨[], rfl, by simp⟩
    · intro _
      rfl
  | succ n ih =>
    intro x hx
    cases x with
    | nil =>
      constructor
      · intro _
        exact ⟨[], rfl, by simp⟩
      · intro _
        rfl
    | cons c cs =>
      rw [rmatch_cons]
      show (Regex.cat (P.deriv c) (.star P)).rmatch cs = true ↔ _
      rw [cat_rmatch_iff]
      constructor
      · rintro ⟨t, u, rfl, ht, hu⟩
        have hu' : u.length ≤ n := by
          have h1 := hx
          simp [List.length_append] at h1
          omega
        obtain ⟨S, rfl, hmem⟩ := (ih u hu').mp hu
        refine ⟨(c :: t) :: S, by simp, ?_⟩
        intro t' ht'
        rcases List.mem_cons.mp ht' with rfl | h1
        · exact ⟨by simp, ht⟩
        · exact hmem t' h1
      · rintro ⟨S, hS, hmem⟩
        cases S with
        | nil => simp at hS
        | cons t S =>
          cases t with
          | nil => exact absurd rfl (hmem [] (by simp)).1
          | cons b t =>
            have hS' : c :: cs = b :: (t ++ S.flatten) := by simpa using hS
            obtain ⟨rfl, hx'⟩ : c = b ∧ cs = t ++ S.flatten := by
              injection hS' with h1 h2; exact ⟨h1, h2⟩
            refine ⟨t, S.flatten, hx', ?_, ?_⟩
            · have := (hmem (c :: t) (by simp)).2
              rwa [rmatch_cons] at this
            · have hlen : S.flatten.length ≤ n := by
                have h1 : cs.length ≤ n := by simpa using hx
                have h2 : S.flatten.length ≤ cs.length := by
                  rw [hx', List.length_append]
                  omega
                omega
              exact (ih S.flatten hlen).mpr ⟨S, rfl, fun t' h => hmem t' (by simp [h])⟩

theorem star_rmatch_iff (P : Regex) (x : List Char) :
    (Regex.star P).rmatch x = true ↔
      ∃ S : List (List Char), x = S.flatten ∧ ∀ t ∈ S, t ≠ [] ∧ P.rmatch t = true :=
  star_rmatch_aux P x.length x (Nat.le_refl _)

theorem rchar_rmatch_iff (c : Char) (x : List Char) :
    (rchar c).rmatch x = true ↔ x = [c] := by
  rw [rchar, cls_rmatch_iff]
  constructor
  · rintro ⟨c', rfl, hc⟩
    rw [show c' = c from by simpa using hc]
  · rintro rfl
    exact ⟨c, rfl, by simp⟩

theorem rstring_rmatch_iff (w x : List Char) :
    (rstring w).rmatch x = true ↔ x = w := by
  induction w generalizing x with
  | nil => simpa [rstring] using eps_rmatch_iff x
  | cons c w ih =>
    rw [rstring, cat_rmatch_iff]
    constructor
    · rintro ⟨t, u, rfl, ht, hu⟩
      rw [(rchar_rmatch_iff c t).mp ht, (ih u).mp hu]
      rfl
    · rintro rfl
      exact ⟨[c], w, rfl, (rchar_rmatch_iff c [c]).mpr rfl, (ih w).mpr rfl⟩

theorem flatten_singletons (w : List Char) : (w.map (fun c => [c])).flatten = w := by
  induction w with
  | nil => rfl
  | cons c w ih => simp [ih]

theorem starcls_rmatch_iff (p : Char → Bool) (w : List Char) :
    (Regex.star (.cls p)).rmatch w = true ↔ ∀ x ∈ w, p x = true := by
  rw [star_rmatch_iff]
  constructor
  · rintro ⟨S, rfl, hmem⟩ x hx
    obtain ⟨t, htS, hxt⟩ := List.mem_flatten.mp hx
    obtain ⟨c, rfl, hc⟩ := (cls_rmatch_iff p t).mp (hmem t htS).2
    rw [show x = c from by simpa using hxt]
    exact hc
  · intro h
    refine ⟨w.map (fun c => [c]), (flatten_singletons w).symm, ?_⟩
    intro t ht
    obtain ⟨c, hc, rfl⟩ := List.mem_map.mp ht
    exact ⟨by simp, (cls_rmatch_iff p [c]).mpr ⟨c, rfl, h c hc⟩⟩

theorem flowNameChunk_iff (t : List Char) :
    flowNameChunk.rmatch t = true ↔
      ∃ ds c, t = ds ++ [c] ∧ (∀ x ∈ ds, isDashChar x = true) ∧ isLowAlnum c = true := by
  rw [show flowNameChunk = Regex.cat (.star (.cls isDashChar)) (.cls isLowAlnum) from rfl,
    cat_rmatch_iff]
  constructor
  · rintro ⟨ds, u, rfl, hds, hu⟩
    obtain ⟨c, rfl, hc⟩ := (cls_rmatch_iff _ u).mp hu
    exact ⟨ds, c, rfl, (starcls_rmatch_iff _ ds).mp hds, hc⟩
  · rintro ⟨ds, c, rfl, hds, hc⟩
    exact ⟨ds, [c], rfl, (starcls_rmatch_iff _ ds).mpr hds, (cls_rmatch_iff _ [c]).mpr ⟨c, rfl, hc⟩⟩

theorem flowNameChunks_last : ∀ (S : List (List Char)),
    (∀ t ∈ S, flowNameChunk.rmatch t = true) →
    ∀ c, S.flatten.getLast? = some c → isLowAlnum c = true := by
  intro S
  induction S with
  | nil => simp
  | cons t S ih =>
    intro hmem c hc
    by_cases hS : S.flatten = []
    · rw [List.flatten_cons, hS, List.append_nil] at hc
      obtain ⟨ds, c', rfl, _, hc'⟩ := (flowNameChunk_iff t).mp (hmem t (by simp))
      rw [List.getLast?_concat] at hc
      obtain rfl : c' = c := by injection hc
      exact hc'
    · rw [List.flatten_cons, List.getLast?_append_of_ne_nil _ hS] at hc
      exact ih (fun t' ht' => hmem t' (List.mem_cons_of_mem _ ht')) c hc

theorem flowNameTail_chars (w : List Char) (h : flowNameTail.rmatch w = true) :
    ∀ x ∈ w, isLowAlnum x = true ∨ isDashChar x = true := by
  obtain ⟨S, rfl, hmem⟩ := (star_rmatch_iff _ _).mp h
  intro x hx
  obtain ⟨t, htS, hxt⟩ := List.mem_flatten.mp hx
  obtain ⟨ds, c, rfl, hds, hc⟩ := (flowNameChunk_iff t).mp (hmem t htS).2
  rcases List.mem_append.mp hxt with hin | hin
  · exact Or.inr (hds x hin)
  · rw [show x = c from by simpa using hin]
    exact Or.inl hc

theorem flowNameTail_last (w : List Char) (h : flowNameTail.rmatch w = true) :
    ∀ c, w.getLast? = some c → isLowAlnum c = true := by
  obtain ⟨S, rfl, hmem⟩ := (star_rmatch_iff _ _).mp h
  exact flowNameChunks_last S (fun t ht => (hmem t ht).2)

theorem flowNameTail_cons_dash (w : List Char) (hw : w ≠ [])
    (h : flowNameTail.rmatch w = true) : flowNameTail.rmatch ('-' :: w) = true := by
  obtain ⟨S, rfl, hmem⟩ := (star_rmatch_iff _ _).mp h
  cases S with
  | nil => simp at hw
  | cons t S =>
    obtain ⟨ds, c, rfl, hds, hc⟩ := (flowNameChunk_iff t).mp (hmem _ (by simp)).2
    apply (star_rmatch_iff _ _).mpr
    refine ⟨(('-' :: ds) ++ [c]) :: S, by simp, ?_⟩
    intro t' ht'
    rcases List.mem_cons.mp ht' with rfl | h1
    · refine ⟨by simp, (flowNameChunk_iff _).mpr ⟨'-' :: ds, c, rfl, ?_, hc⟩⟩
      intro x hx
      rcases List.mem_cons.mp hx with rfl | hx1
      · rfl
      · exact hds x hx1
    · exact hmem t' (List.mem_cons_of_mem _ h1)

theorem flowNameTail_complete : ∀ (w : List Char),
    (∀ x ∈ w, isLowAlnum x = true ∨ isDashChar x = true) →
    (∀ c, w.getLast? = some c → isLowAlnum c = true) →
    flowNameTail.rmatch w = true := by
  intro w
  induction w with
  | nil => intro _ _; rfl
  | cons x w ih =>
    intro hchars hlast
    have htail : w ≠ [] → flowNameTail.rmatch w = true := by
      intro hwne
      apply ih
      · intro y hy
        exact hchars y (List.mem_cons_of_mem _ hy)
      · intro c hc
        apply hlast
        rw [show (x :: w).getLast? = w.getLast? from by
          cases w with
          | nil => exact absurd rfl hwne
          | cons a t => simp [List.getLast?_cons_cons]]
        exact hc
    by_cases hx : isLowAlnum x = true
    · by_cases hwne : w = []
      · subst hwne
        apply (star_rmatch_iff _ _).mpr
        exact ⟨[[x]], rfl, by
          intro t ht
          rw [show t = [x] from by simpa using ht]
          exact ⟨by simp, (flowNameChunk_iff _).mpr ⟨[], x, rfl, by simp, hx⟩⟩⟩
      · obtain ⟨S, hSf, hmem⟩ := (star_rmatch_iff _ _).mp (htail hwne)
        apply (star_rmatch_iff _ _).mpr
        refine ⟨[x] :: S, by simp [← hSf], ?_⟩
        intro t ht
        rcases List.mem_cons.mp ht with rfl | h1
        · exact ⟨by simp, (flowNameChunk_iff _).mpr ⟨[], x, rfl, by simp, hx⟩⟩
        · exact hmem t h1
    · have hdx : isDashChar x = true := (hchars x (by simp)).resolve_left hx
      have hxd : x = '-' := by simpa [isDashChar] using hdx
      have hwne : w ≠ [] := by
        intro h
        subst h
        exact hx (hlast x (by simp))
      subst hxd
      exact flowNameTail_cons_dash w hwne (htail hwne)

theorem flowName_chars_iff (cs : List Char) :
    flowDefinitionNameRegex.rmatch cs = true ↔ FlowNameChars cs := by
  rw [show flowDefinitionNameRegex = Regex.cat (.cls isLowAlnum) flowNameTail from rfl,
    cat_rmatch_iff]
  constructor
  · rintro ⟨t, u, rfl, ht, hu⟩
    obtain ⟨c, rfl, hc⟩ := (cls_rmatch_iff _ t).mp ht
    refine ⟨by simp, ?_, ?_, ?_⟩
    · intro y hy
      rcases List.mem_append.mp hy with hin | hin
      · rw [show y = c from by simpa using hin]
        exact Or.inl hc
      · rcases flowNameTail_chars u hu y hin with h | h
        · exact Or.inl h
        · exact Or.inr (by simpa [isDashChar] using h)
    · intro c' hc'
      obtain rfl : c = c' := by simpa using hc'
      exact hc
    · intro c' hc'
      by_cases hu0 : u = []
      · subst hu0
        obtain rfl : c = c' := by simpa using hc'
        exact hc
      · rw [show ([c] ++ u).getLast? = u.getLast? from
          List.getLast?_append_of_ne_nil _ hu0] at hc'
        exact flowNameTail_last u hu c' hc'
  · rintro ⟨hne, hchars, hhead, hlast⟩
    cases cs with
    | nil => exact absurd rfl hne
    | cons c u =>
      have hc : isLowAlnum c = true := hhead c rfl
      refine ⟨[c], u, rfl, (cls_rmatch_iff _ [c]).mpr ⟨c, rfl, hc⟩, ?_⟩
      apply flowNameTail_complete
      · intro y hy
        rcases hchars y (List.mem_cons_of_mem _ hy) with h | h
        · exact Or.inl h
        · exact Or.inr (by simp [isDashChar, h])
      · intro c' hc'
        have hune : u ≠ [] := by
          intro h
          rw [h] at hc'
          simp at hc'
        apply hlast
        rw [show (c :: u).getLast? = u.getLast? from by
          cases u with
          | nil => exact absurd rfl hune
          | cons a t => simp [List.getLast?_cons_cons]]
        exact hc'

theorem s3_rmatch_decomp (cs : List Char) (h : s3OutputPathRegex.rmatch cs = true) :
    ∃ c rest, (cs = ("https://").toList ++ c :: rest ∨ cs = ("s3://").toList ++ c :: rest)
      ∧ c ≠ '/' := by
  rw [show s3OutputPathRegex = Regex.cat (.alt (rstring ("https").toList) (rstring ("s3").toList))
      (.cat (rstring ("://").toList)
        (.cat (.cls notSlash)
          (.cat (.alt .eps (rchar '/')) (.star (.cls notNewline))))) from rfl,
    cat_rmatch_iff] at h
  obtain ⟨t, u, rfl, ht, hu⟩ := h
  rw [cat_rmatch_iff] at hu
  obtain ⟨t2, u2, rfl, ht2, hu2⟩ := hu
  obtain rfl : t2 = ("://").toList := (rstring_rmatch_iff _ t2).mp ht2
  rw [cat_rmatch_iff] at hu2
  obtain ⟨t3, u3, rfl, ht3, _⟩ := hu2
  obtain ⟨c, rfl, hc⟩ := (cls_rmatch_iff _ t3).mp ht3
  have hcne : c ≠ '/' := by
    intro hceq
    subst hceq
    simp [notSlash] at hc
  rcases (alt_rmatch_iff _ _ t).mp ht with hs | hs
  · obtain rfl : t = ("https").toList := (rstring_rmatch_iff _ t).mp hs
    refine ⟨c, u3, Or.inl ?_, hcne⟩
    rw [show ("https://").toList = ("https").toList ++ ("://").toList from by decide]
    simp
  · obtain rfl : t = ("s3").toList := (rstring_rmatch_iff _ t).mp hs
    refine ⟨c, u3, Or.inr ?_, hcne⟩
    rw [show ("s3://").toList = ("s3").toList ++ ("://").toList from by decide]
    simp

theorem expandHLACC_ok_none_iff (decode : String → JSONValue × Option GoErr) (l : List Attr) :
    expandSagemakerFlowDefinitionHumanLoopActivationConditionsConfig decode l = .ok none ↔
      (l = [] ∨ l.head? = some .nil) := by
  cases l with
  | nil => simp [expandSagemakerFlowDefinitionHumanLoopActivationConditionsConfig]
  | cons a t =>
    cases a with
    | nil => simp [expandSagemakerFlowDefinitionHumanLoopActivationConditionsConfig]
    | map m =>
      simp only [expandSagemakerFlowDefinitionHumanLoopActivationConditionsConfig, asMapAttr]
      cases hs : asString (lookupAttr m "human_loop_activation_conditions") with
      | error e => simp [hs]
      | ok s => simp [hs]
    | str s => simp [expandSagemakerFlowDefinitionHumanLoopActivationConditionsConfig, asMapAttr]
    | int n => simp [expandSagemakerFlowDefinitionHumanLoopActivationConditionsConfig, asMapAttr]
    | set xs => simp [expandSagemakerFlowDefinitionHumanLoopActivationConditionsConfig, asMapAttr]
    | list xs => simp [expandSagemakerFlowDefinitionHumanLoopActivationConditionsConfig, asMapAttr]

theorem expandHLAC_ok_none_iff (decode : String → JSONValue × Option GoErr) (l : List Attr) :
    expandSagemakerFlowDefinitionHumanLoopActivationConfig decode l = .ok none ↔
      (l = [] ∨ l.head? = some .nil) := by
  cases l with
  | nil => simp [expandSagemakerFlowDefinitionHumanLoopActivationConfig]
  | cons a t =>
    cases a with
    | nil => simp [expandSagemakerFlowDefinitionHumanLoopActivationConfig]
    | map m =>
      simp only [expandSagemakerFlowDefinitionHumanLoopActivationConfig, asMapAttr]
      cases hs : asList (lookupAttr m "human_loop_activation_conditions_config") with
      | error e => simp [hs]
      | ok inner =>
        cases hc : expandSagemakerFlowDefinitionHumanLoopActivationConditionsConfig decode inner with
        | error e => simp [hs, hc]
        | ok c => simp [hs, hc]
    | str s => simp [expandSagemakerFlowDefinitionHumanLoopActivationConfig, asMapAttr]
    | int n => simp [expandSagemakerFlowDefinitionHumanLoopActivationConfig, asMapAttr]
    | set xs => simp [expandSagemakerFlowDefinitionHumanLoopActivationConfig, asMapAttr]
    | list xs => simp [expandSagemakerFlowDefinitionHumanLoopActivationConfig, asMapAttr]

theorem expandOC_ok_none_iff (l : List Attr) :
    expandSagemakerFlowDefinitionOutputConfig l = .ok none ↔
      (l = [] ∨ l.head? = some .nil) := by
  cases l with
  | nil => simp [expandSagemakerFlowDefinitionOutputConfig]
  | cons a t =>
    cases a with
    | nil => simp [expandSagemakerFlowDefinitionOutputConfig]
    | map m =>
      simp only [expandSagemakerFlowDefinitionOutputConfig, asMapAttr]
      cases hs : asString (lookupAttr m "s3_output_path") with
      | error e => simp [hs]
      | ok s3 =>
        cases hk : asStringOk (lookupAttr m "kms_key_id") with
        | mk v b =>
          cases b with
          | false => simp [hs, hk]
          | true =>
            by_cases hv : v ≠ ""
            · simp [hs, hk, hv]
            · simp [hs, hk, hv]
    | str s => simp [expandSagemakerFlowDefinitionOutputConfig, asMapAttr]
    | int n => simp [expandSagemakerFlowDefinitionOutputConfig, asMapAttr]
    | set xs => simp [expandSagemakerFlowDefinitionOutputConfig, asMapAttr]
    | list xs => simp [expandSagemakerFlowDefinitionOutputConfig, asMapAttr]

theorem expandHLRS_ok_none_iff (l : List Attr) :
    expandSagemakerFlowDefinitionHumanLoopRequestSource l = .ok none ↔
      (l = [] ∨ l.head? = some .nil) := by
  cases l with
  | nil => simp [expandSagemakerFlowDefinitionHumanLoopRequestSource]
  | cons a t =>
    cases a with
    | nil => simp [expandSagemakerFlowDefinitionHumanLoopRequestSource]
    | map m =>
      simp only [expandSagemakerFlowDefinitionHumanLoopRequestSource, asMapAttr]
      cases hs : asString (lookupAttr m "aws_managed_human_loop_request_source") with
      | error e => simp [hs]
      | ok s => simp [hs]
    | str s => simp [expandSagemakerFlowDefinitionHumanLoopRequestSource, asMapAttr]
    | int n => simp [expandSagemakerFlowDefinitionHumanLoopRequestSource, asMapAttr]
    | set xs => simp [expandSagemakerFlowDefinitionHumanLoopRequestSource, asMapAttr]
    | list xs => simp [expandSagemakerFlowDefinitionHumanLoopRequestSource, asMapAttr]

theorem expandHLC_ok_none_iff (l : List Attr) :
    expandSagemakerFlowDefinitionHumanLoopConfig l = .ok none ↔
      (l = [] ∨ l.head? = some .nil) := by
  cases l with
  | nil => simp [expandSagemakerFlowDefinitionHumanLoopConfig]
  | cons a t =>
    cases a with
    | nil => simp [expandSagemakerFlowDefinitionHumanLoopConfig]
    | map m =>
      simp only [expandSagemakerFlowDefinitionHumanLoopConfig, asMapAttr]
      cases h1 : asString (lookupAttr m "human_task_ui_arn") with
      | error e =>
        cases h2 : asInt (lookupAttr m "task_count") <;>
          cases h3 : asString (lookupAttr m "task_description") <;>
          cases h4 : asString (lookupAttr m "task_title") <;>
          cases h5 : asString (lookupAttr m "workteam_arn") <;>
          simp [h1, h2, h3, h4, h5]
      | ok hArn =>
        cases h2 : asInt (lookupAttr m "task_count") with
        | error e =>
          cases h3 : asString (lookupAttr m "task_description") <;>
            cases h4 : asString (lookupAttr m "task_title") <;>
            cases h5 : asString (lookupAttr m "workteam_arn") <;>
            simp [h1, h2, h3, h4, h5]
        | ok tc =>
          cases h3 : asString (lookupAttr m "task_description") with
          | error e =>
            cases h4 : asString (lookupAttr m "task_title") <;>
              cases h5 : asString (lookupAttr m "workteam_arn") <;>
              simp [h1, h2, h3, h4, h5]
          | ok td =>
            cases h4 : asString (lookupAttr m "task_title") with
            | error e =>
              cases h5 : asString (lookupAttr m "workteam_arn") <;>
                simp [h1, h2, h3, h4, h5]
            | ok tt =>
              cases h5 : asString (lookupAttr m "workteam_arn") with
              | error e => simp [h1, h2, h3, h4, h5]
              | ok wa => simp [h1, h2, h3, h4, h5]
    | str s => simp [expandSagemakerFlowDefinitionHumanLoopConfig, asMapAttr]
    | int n => simp [expandSagemakerFlowDefinitionHumanLoopConfig, asMapAttr]
    | set xs => simp [expandSagemakerFlowDefinitionHumanLoopConfig, asMapAttr]
    | list xs => simp [expandSagemakerFlowDefinitionHumanLoopConfig, asMapAttr]

/-- C1: expand/flatten round-trip for `human_loop_config`: for a one-element
list whose map binds `human_task_ui_arn`, `task_description`, `task_title`,
`workteam_arn` to strings, `task_count`,
`task_availability_lifetime_in_seconds`, `task_time_limit_in_seconds` to
integers, and `task_keywords` to nothing or a non-empty string set,
flattening the expanded config yields the original list back. -/
theorem humanLoopConfig_expand_flatten_roundTrip (arn td tt wa : String)
    (tc tal ttl : Int) (kw : Option (List String)) (hkw : kw ≠ some []) :
    ∃ c, expandSagemakerFlowDefinitionHumanLoopConfig
        [.map (hlcInputMap arn td tt wa tc tal ttl kw)] = .ok (some c) ∧
      flattenSagemakerFlowDefinitionHumanLoopConfig (some c) =
        [hlcInputMap arn td tt wa tc tal ttl kw] := by
  rcases kw with _ | v
  · exact ⟨_, rfl, rfl⟩
  · rcases v with _ | ⟨a, as⟩
    · exact absurd rfl hkw
    · refine ⟨{ humanTaskUiArn := some arn, taskCount := some tc,
                taskDescription := some td, taskTitle := some tt, workteamArn := some wa,
                taskKeywords := some (a :: as), taskAvailabilityLifetimeInSeconds := some tal,
                taskTimeLimitInSeconds := some ttl }, ?_, rfl⟩
      simp [expandSagemakerFlowDefinitionHumanLoopConfig, hlcInputMap, lookupAttr,
        asMapAttr, asString, asInt, asSetOk, asIntOk, expandStringSet]

/-- Witness for C1 at a concrete configuration with keywords present. -/
theorem humanLoopConfig_expand_flatten_roundTrip_witness :
    (some ["kw1"] : Option (List String)) ≠ some [] ∧
    ∃ c, expandSagemakerFlowDefinitionHumanLoopConfig
        [.map (hlcInputMap "arn:ui" "desc" "title" "arn:wt" 1 600 3600 (some ["kw1"]))] =
        .ok (some c) ∧
      flattenSagemakerFlowDefinitionHumanLoopConfig (some c) =
        [hlcInputMap "arn:ui" "desc" "title" "arn:wt" 1 600 3600 (some ["kw1"])] :=
  ⟨by decide,
   humanLoopConfig_expand_flatten_roundTrip "arn:ui" "desc" "title" "arn:wt" 1 600 3600
     (some ["kw1"]) (by decide)⟩

/-- C4: expand/flatten round-trip for `output_config`: for a one-element list
whose map binds `s3_output_path` and `kms_key_id` to strings (`kms_key_id`
possibly empty), flattening the expanded config yields the original list. -/
theorem outputConfig_expand_flatten_roundTrip (kms s3 : String) :
    ∃ c, expandSagemakerFlowDefinitionOutputConfig [.map (ocInputMap kms s3)] = .ok (some c) ∧
      flattenSagemakerFlowDefinitionOutputConfig (some c) = [ocInputMap kms s3] := by
  by_cases hk : kms = ""
  · subst hk
    exact ⟨_, rfl, rfl⟩
  · refine ⟨{ s3OutputPath := some s3, kmsKeyId := some kms }, ?_, rfl⟩
    show (if kms ≠ "" then _ else _) = _
    rw [if_pos hk]

/-- C9: the JSON codec errors are silently discarded: whatever value/error
pair the decoder returns on any input string, the expand function returns a
non-nil conditions config built from the value alone; symmetrically the
flatten function uses only the encoder's value and always returns a
one-element list on non-nil input. -/
theorem humanLoopActivationConditions_discard_codec_errors
    (decode : String → JSONValue × Option GoErr)
    (encode : JSONValue → String × Option GoErr) (s : String) (rest : AttrMap)
    (c : HumanLoopActivationConditionsConfig) :
    expandSagemakerFlowDefinitionHumanLoopActivationConditionsConfig decode
        [.map (("human_loop_activation_conditions", .str s) :: rest)] =
      .ok (some { humanLoopActivationConditions := (decode s).1 }) ∧
    flattenSagemakerFlowDefinitionHumanLoopActivationConditionsConfig encode (some c) =
      [[("human_loop_activation_conditions",
         .str (encode c.humanLoopActivationConditions).1)]] :=
  ⟨rfl, rfl⟩

/-- C10: nil/empty edge of all five expand/flatten pairs: each expand
function returns nil (without panicking) exactly when the input list is
empty or begins with nil, and each flatten function maps nil to the empty
list; hence flatten(expand([])) = [] and expand(flatten(nil)) = nil. -/
theorem expand_flatten_nil_edges (decode : String → JSONValue × Option GoErr)
    (encode : JSONValue → String × Option GoErr) :
    (∀ l, expandSagemakerFlowDefinitionHumanLoopActivationConfig decode l = .ok none ↔
      (l = [] ∨ l.head? = some .nil)) ∧
    flattenSagemakerFlowDefinitionHumanLoopActivationConfig encode none = [] ∧
    (∀ l, expandSagemakerFlowDefinitionHumanLoopActivationConditionsConfig decode l = .ok none ↔
      (l = [] ∨ l.head? = some .nil)) ∧
    flattenSagemakerFlowDefinitionHumanLoopActivationConditionsConfig encode none = [] ∧
    (∀ l, expandSagemakerFlowDefinitionOutputConfig l = .ok none ↔
      (l = [] ∨ l.head? = some .nil)) ∧
    flattenSagemakerFlowDefinitionOutputConfig none = [] ∧
    (∀ l, expandSagemakerFlowDefinitionHumanLoopRequestSource l = .ok none ↔
      (l = [] ∨ l.head? = some .nil)) ∧
    flattenSagemakerFlowDefinitionHumanLoopRequestSource none = [] ∧
    (∀ l, expandSagemakerFlowDefinitionHumanLoopConfig l = .ok none ↔
      (l = [] ∨ l.head? = some .nil)) ∧
    flattenSagemakerFlowDefinitionHumanLoopConfig none = [] :=
  ⟨expandHLAC_ok_none_iff decode, rfl,
   expandHLACC_ok_none_iff decode, rfl,
   expandOC_ok_none_iff, rfl,
   expandHLRS_ok_none_iff, rfl,
   expandHLC_ok_none_iff, rfl⟩

/-- C5: a string is accepted by the `flow_definition_name` validator iff its
length is between 1 and 63 and it matches `^[a-z0-9](-*[a-z0-9])*$`; the
pattern's language is exactly the strings of lowercase alphanumerics and
hyphens that start and end with an alphanumeric. -/
theorem flowDefinitionName_validator_characterization (s : String) :
    (validateFlowDefinitionName s = true ↔
      (1 ≤ s.utf8ByteSize ∧ s.utf8ByteSize ≤ 63 ∧
        flowDefinitionNameRegex.rmatch s.toList = true)) ∧
    (flowDefinitionNameRegex.rmatch s.toList = true ↔ FlowNameChars s.toList) := by
  constructor
  · simp [validateFlowDefinitionName, stringLenBetween, stringMatchRegex,
      Bool.and_eq_true, and_assoc]
  · exact flowName_chars_iff s.toList

/-- C6: a string is accepted by the `s3_output_path` validator iff its length
is between 1 and 512 and it matches `^(https|s3)://([^/])/?(.*)$`; in
particular every accepted value starts with "https://" or "s3://" followed
by a non-slash character. -/
theorem s3OutputPath_validator_characterization (s : String) :
    (validateS3OutputPath s = true ↔
      (s3OutputPathRegex.rmatch s.toList = true ∧
        1 ≤ s.utf8ByteSize ∧ s.utf8ByteSize ≤ 512)) ∧
    (validateS3OutputPath s = true →
      ∃ c rest, (s.toList = ("https://").toList ++ c :: rest ∨
        s.toList = ("s3://").toList ++ c :: rest) ∧ c ≠ '/') := by
  constructor
  · simp [validateS3OutputPath, stringLenBetween, stringMatchRegex,
      Bool.and_eq_true, and_assoc]
  · intro h
    apply s3_rmatch_decomp
    have h1 := h
    simp [validateS3OutputPath, stringMatchRegex, Bool.and_eq_true] at h1
    exact h1.1

/-- Witness for C6 at a concrete accepted path. -/
theorem s3OutputPath_validator_characterization_witness :
    validateS3OutputPath "s3://bucket/key" = true ∧
    (∃ c rest, (("s3://bucket/key").toList = ("https://").toList ++ c :: rest ∨
      ("s3://bucket/key").toList = ("s3://").toList ++ c :: rest) ∧ c ≠ '/') :=
  ⟨by decide, (s3OutputPath_validator_characterization "s3://bucket/key").2 (by decide)⟩

/-- C2: drift detection in Read: when the resource is not newly created, a
not-found lookup clears the resource ID and returns nil, while any other
lookup error is wrapped and returned with the ID unchanged. -/
theorem flowDefinitionRead_drift (api : AwsApi) (env : AwsClientEnv)
    (d : ResourceData) (hnew : d.isNew = false) :
    (∀ e, api.describeFlowDefinition d.getId = .error e → e.isNotFound = true →
      (resourceAwsSagemakerFlowDefinitionRead api env d).d.id = "" ∧
      (resourceAwsSagemakerFlowDefinitionRead api env d).err = none) ∧
    (∀ e, api.describeFlowDefinition d.getId = .error e → e.isNotFound = false →
      (resourceAwsSagemakerFlowDefinitionRead api env d).err =
        some (wrapErr ("error reading SageMaker Flow Definition (" ++ d.getId ++ ")") e) ∧
      (resourceAwsSagemakerFlowDefinitionRead api env d).d.id = d.id) := by
  constructor
  · intro e he hnf
    simp [resourceAwsSagemakerFlowDefinitionRead, he, hnew, hnf, ResourceData.setId]
  · intro e he hnf
    simp [resourceAwsSagemakerFlowDefinitionRead, he, hnew, hnf]

/-- Witness for C2: a not-found lookup clears the ID; a different error is
wrapped and keeps the ID. -/
theorem flowDefinitionRead_drift_witness :
    (resourceAwsSagemakerFlowDefinitionRead
      (testApi (.error .notFoundErr) none none none) testEnv testData).d.id = "" ∧
    (resourceAwsSagemakerFlowDefinitionRead
      (testApi (.error .notFoundErr) none none none) testEnv testData).err = none ∧
    (resourceAwsSagemakerFlowDefinitionRead
      (testApi (.error (.simple "boom")) none none none) testEnv testData).err =
      some (wrapErr ("error reading SageMaker Flow Definition (abc)") (.simple "boom")) ∧
    (resourceAwsSagemakerFlowDefinitionRead
      (testApi (.error (.simple "boom")) none none none) testEnv testData).d.id = "abc" := by
  have h1 := (flowDefinitionRead_drift (testApi (.error .notFoundErr) none none none)
    testEnv testData rfl).1 .notFoundErr rfl rfl
  have h2 := (flowDefinitionRead_drift (testApi (.error (.simple "boom")) none none none)
    testEnv testData rfl).2 (.simple "boom") rfl rfl
  exact ⟨h1.1, h1.2, h2.1, h2.2⟩

/-- C8: Delete error classification: the Delete function returns nil when the
call succeeds or fails with a ValidationException mentioning "The work team";
every other error comes back wrapped and non-nil. -/
theorem flowDefinitionDelete_classification (api : AwsApi) (d : ResourceData) :
    ((resourceAwsSagemakerFlowDefinitionDelete api d).err = none ↔
      (api.deleteFlowDefinition d.getId = none ∨
        errMessageContains (api.deleteFlowDefinition d.getId)
          "ValidationException" "The work team" = true)) ∧
    (∀ e, api.deleteFlowDefinition d.getId = some e →
      errMessageContains (some e) "ValidationException" "The work team" = false →
      (resourceAwsSagemakerFlowDefinitionDelete api d).err =
        some (wrapErr ("error deleting SageMaker Flow Definition ("
          ++ d.getId ++ ")") e)) := by
  constructor
  · cases he : api.deleteFlowDefinition d.getId with
    | none => simp [resourceAwsSagemakerFlowDefinitionDelete, he, errMessageContains]
    | some e =>
      by_cases hv : errMessageContains (some e) "ValidationException" "The work team" = true
      · simp [resourceAwsSagemakerFlowDefinitionDelete, he, hv]
      · simp only [Bool.not_eq_true] at hv
        simp [resourceAwsSagemakerFlowDefinitionDelete, he, hv]
  · intro e he hv
    simp [resourceAwsSagemakerFlowDefinitionDelete, he, hv]

/-- Witness for C8: a "work team" validation error is swallowed, an access
error is wrapped. -/
theorem flowDefinitionDelete_classification_witness :
    (resourceAwsSagemakerFlowDefinitionDelete
      (testApi (.error .notFoundErr) none none
        (some (.awsErr "ValidationException" "The work team xyz"))) testData).err = none ∧
    (resourceAwsSagemakerFlowDefinitionDelete
      (testApi (.error .notFoundErr) none none
        (some (.awsErr "AccessDenied" "nope"))) testData).err =
      some (wrapErr ("error deleting SageMaker Flow Definition (abc)")
        (.awsErr "AccessDenied" "nope")) := by
  have h1 := (flowDefinitionDelete_classification
    (testApi (.error .notFoundErr) none none
      (some (.awsErr "ValidationException" "The work team xyz"))) testData).1.mpr
    (Or.inr (by decide))
  have h2 := (flowDefinitionDelete_classification
    (testApi (.error .notFoundErr) none none
      (some (.awsErr "AccessDenied" "nope"))) testData).2
    (.awsErr "AccessDenied" "nope") rfl (by decide)
  exact ⟨h1, h2⟩

theorem read_calls_not_mutating (api : AwsApi) (env : AwsClientEnv) (d : ResourceData) :
    (resourceAwsSagemakerFlowDefinitionRead api env d).calls.filter ApiCall.isMutating = [] := by
  unfold resourceAwsSagemakerFlowDefinitionRead
  cases api.describeFlowDefinition d.getId with
  | error e =>
    by_cases h : (!d.isNew && e.isNotFound) = true
    · simp [h, ApiCall.isMutating]
    · simp only [Bool.not_eq_true] at h
      simp [h, ApiCall.isMutating]
  | ok fd =>
    cases ht : api.listTags (stringValue fd.flowDefinitionArn) with
    | error e => simp [ht, ApiCall.isMutating]
    | ok tags => simp [ht, ApiCall.isMutating]

/-- C7: Update reconciles only tags: the tag-update call is issued exactly
when `tags_all` changed, it is the only mutating call in the trace (so no
non-tag attribute of the remote resource is touched), a tag-update failure
is returned wrapped, and otherwise the result is that of Read. -/
theorem flowDefinitionUpdate_frame (api : AwsApi) (env : AwsClientEnv) (d : ResourceData) :
    ((resourceAwsSagemakerFlowDefinitionUpdate api env d).calls.filter ApiCall.isMutating =
      (if d.hasChange "tags_all" then
        [.updateTags (d.getStr "arn") (d.getChange "tags_all").1 (d.getChange "tags_all").2]
      else [])) ∧
    (d.hasChange "tags_all" = false →
      resourceAwsSagemakerFlowDefinitionUpdate api env d =
        resourceAwsSagemakerFlowDefinitionRead api env d) ∧
    (d.hasChange "tags_all" = true →
      (∀ e, api.updateTags (d.getStr "arn") (d.getChange "tags_all").1
          (d.getChange "tags_all").2 = some e →
        (resourceAwsSagemakerFlowDefinitionUpdate api env d).err =
          some (wrapErr ("error updating SageMaker Flow Definition ("
            ++ d.getId ++ ") tags") e) ∧
        (resourceAwsSagemakerFlowDefinitionUpdate api env d).d = d) ∧
      (api.updateTags (d.getStr "arn") (d.getChange "tags_all").1
          (d.getChange "tags_all").2 = none →
        (resourceAwsSagemakerFlowDefinitionUpdate api env d).d =
          (resourceAwsSagemakerFlowDefinitionRead api env d).d ∧
        (resourceAwsSagemakerFlowDefinitionUpdate api env d).err =
          (resourceAwsSagemakerFlowDefinitionRead api env d).err ∧
        (resourceAwsSagemakerFlowDefinitionUpdate api env d).calls =
          .updateTags (d.getStr "arn") (d.getChange "tags_all").1
            (d.getChange "tags_all").2 ::
            (resourceAwsSagemakerFlowDefinitionRead api env d).calls)) := by
  by_cases hch : d.hasChange "tags_all" = true
  · refine ⟨?_, ?_, ?_⟩
    · cases hu : api.updateTags (d.getStr "arn") (d.getChange "tags_all").1
        (d.getChange "tags_all").2 with
      | some e =>
        simp [resourceAwsSagemakerFlowDefinitionUpdate, hch, hu, ApiCall.isMutating]
      | none =>
        simp [resourceAwsSagemakerFlowDefinitionUpdate, hch, hu, ApiCall.isMutating,
          read_calls_not_mutating]
    · intro h
      rw [hch] at h
      exact absurd h (by simp)
    · intro _
      constructor
      · intro e hu
        simp [resourceAwsSagemakerFlowDefinitionUpdate, hch, hu]
      · intro hu
        simp [resourceAwsSagemakerFlowDefinitionUpdate, hch, hu]
  · simp only [Bool.not_eq_true] at hch
    refine ⟨?_, ?_, ?_⟩
    · simp [resourceAwsSagemakerFlowDefinitionUpdate, hch, read_calls_not_mutating]
    · intro _
      simp [resourceAwsSagemakerFlowDefinitionUpdate, hch]
    · intro h
      rw [hch] at h
      exact absurd h (by simp)

/-- Witness for C7: with changed tags the only mutating call is the tag
update; with unchanged tags the update is exactly a read. -/
theorem flowDefinitionUpdate_frame_witness :
    (resourceAwsSagemakerFlowDefinitionUpdate
        (testApi (.ok testFD) none none none) testEnv testData).calls.filter
        ApiCall.isMutating =
      [.updateTags "arn:x" (.map []) (.map [("k", .str "v")])] ∧
    (resourceAwsSagemakerFlowDefinitionUpdate (testApi (.ok testFD) none none none) testEnv
      { testData with oldAttrs := testData.attrs }) =
      resourceAwsSagemakerFlowDefinitionRead (testApi (.ok testFD) none none none) testEnv
        { testData with oldAttrs := testData.attrs } := by
  constructor
  · have h := (flowDefinitionUpdate_frame (testApi (.ok testFD) none none none)
      testEnv testData).1
    rwa [if_pos (by decide)] at h
  · exact (flowDefinitionUpdate_frame (testApi (.ok testFD) none none none) testEnv
      { testData with oldAttrs := testData.attrs }).2.1 (by decide)

theorem create_unfold (api : AwsApi) (env : AwsClientEnv) (d : ResourceData)
    (hlc : Option HumanLoopConfig) (oc : Option FlowDefinitionOutputConfig)
    (hlac : Option HumanLoopActivationConfig) (hlrs : Option HumanLoopRequestSource)
    (h1 : expandSagemakerFlowDefinitionHumanLoopConfig (d.getList "human_loop_config") = .ok hlc)
    (h2 : expandSagemakerFlowDefinitionOutputConfig (d.getList "output_config") = .ok oc)
    (h3 : expandSagemakerFlowDefinitionHumanLoopActivationConfig env.decodeJSONValue
      (d.getList "human_loop_activation_config") = .ok hlac)
    (h4 : expandSagemakerFlowDefinitionHumanLoopRequestSource
      (d.getList "human_loop_request_source") = .ok hlrs) :
    resourceAwsSagemakerFlowDefinitionCreate api env d =
      (match api.createFlowDefinition (createInputOf env d hlc oc hlac hlrs) with
       | some e =>
         .ok { d := d,
               err := some (wrapErr ("error creating SageMaker Flow Definition ("
                 ++ d.getStr "flow_definition_name" ++ ")") e),
               calls := [.createFlowDefinition (createInputOf env d hlc oc hlac hlrs)] }
       | none =>
         .ok { d := (resourceAwsSagemakerFlowDefinitionRead api env
                 (d.setId (d.getStr "flow_definition_name"))).d,
               err := (resourceAwsSagemakerFlowDefinitionRead api env
                 (d.setId (d.getStr "flow_definition_name"))).err,
               calls := .createFlowDefinition (createInputOf env d hlc oc hlac hlrs) ::
                 (resourceAwsSagemakerFlowDefinitionRead api env
                   (d.setId (d.getStr "flow_definition_name"))).calls }) := by
  unfold resourceAwsSagemakerFlowDefinitionCreate
  rw [h1, h2]
  by_cases hA : (d.getList "human_loop_activation_config").length > 0 <;>
    by_cases hR : (d.getList "human_loop_request_source").length > 0 <;>
    by_cases hT : (env.mergeDefaultTags (d.getTags "tags")).length > 0 <;>
    simp [createInputOf, hA, hR, hT, h3, h4, Except.map]

/-- C3: Create maps the configuration onto the CreateFlowDefinition call:
the first call issued is CreateFlowDefinition with the input assembled from
the expanded blocks; on failure a wrapped error is returned and the resource
data (in particular the ID) is unchanged; on success the ID is set to
`flow_definition_name` and the result is that of Read. -/
theorem flowDefinitionCreate_maps_config (api : AwsApi) (env : AwsClientEnv)
    (d : ResourceData) (hlc : Option HumanLoopConfig)
    (oc : Option FlowDefinitionOutputConfig) (hlac : Option HumanLoopActivationConfig)
    (hlrs : Option HumanLoopRequestSource)
    (h1 : expandSagemakerFlowDefinitionHumanLoopConfig (d.getList "human_loop_config") = .ok hlc)
    (h2 : expandSagemakerFlowDefinitionOutputConfig (d.getList "output_config") = .ok oc)
    (h3 : expandSagemakerFlowDefinitionHumanLoopActivationConfig env.decodeJSONValue
      (d.getList "human_loop_activation_config") = .ok hlac)
    (h4 : expandSagemakerFlowDefinitionHumanLoopRequestSource
      (d.getList "human_loop_request_source") = .ok hlrs) :
    ∃ r, resourceAwsSagemakerFlowDefinitionCreate api env d = .ok r ∧
      r.calls.head? = some (.createFlowDefinition (createInputOf env d hlc oc hlac hlrs)) ∧
      (∀ e, api.createFlowDefinition (createInputOf env d hlc oc hlac hlrs) = some e →
        r.err = some (wrapErr ("error creating SageMaker Flow Definition ("
          ++ d.getStr "flow_definition_name" ++ ")") e) ∧ r.d = d ∧
        r.calls = [.createFlowDefinition (createInputOf env d hlc oc hlac hlrs)]) ∧
      (api.createFlowDefinition (createInputOf env d hlc oc hlac hlrs) = none →
        r.d = (resourceAwsSagemakerFlowDefinitionRead api env
          (d.setId (d.getStr "flow_definition_name"))).d ∧
        r.err = (resourceAwsSagemakerFlowDefinitionRead api env
          (d.setId (d.getStr "flow_definition_name"))).err ∧
        r.calls = .createFlowDefinition (createInputOf env d hlc oc hlac hlrs) ::
          (resourceAwsSagemakerFlowDefinitionRead api env
            (d.setId (d.getStr "flow_definition_name"))).calls) := by
  rw [create_unfold api env d hlc oc hlac hlrs h1 h2 h3 h4]
  cases hc : api.createFlowDefinition (createInputOf env d hlc oc hlac hlrs) with
  | some e =>
    refine ⟨_, rfl, rfl, ?_, ?_⟩
    · intro e' he'
      obtain rfl : e = e' := by injection he'
      exact ⟨rfl, rfl, rfl⟩
    · intro h
      exact absurd h (by simp)
  | none =>
    refine ⟨_, rfl, rfl, ?_, ?_⟩
    · intro e' he'
      exact absurd he' (by simp)
    · intro _
      exact ⟨rfl, rfl, rfl⟩

/-- Witness for C3 at a concrete configuration (empty optional blocks), one
successful create. -/
theorem flowDefinitionCreate_maps_config_witness :
    ∃ r, resourceAwsSagemakerFlowDefinitionCreate (testApi (.ok testFD) none none none)
        testEnv testData = .ok r ∧
      r.calls.head? = some (.createFlowDefinition
        (createInputOf testEnv testData none none none none)) := by
  obtain ⟨r, hr, hh, -, -⟩ := flowDefinitionCreate_maps_config
    (testApi (.ok testFD) none none none) testEnv testData none none none none
    rfl rfl rfl rfl
  exact ⟨r, hr, hh⟩
